import Mathlib

/-!
Shallow embedding of the rainbow-echo-terminal sources:
the Ink application component (`src/cli.tsx` / `src/unnamed/part_001`, which are the
same component; `part_001` additionally threads an optional `onExit` callback),
the stream adapters (`src/streams.ts`) and the pseudoterminal controller
(`src/pseudoterminal.ts`).

Strings are Lean `String`s (lists of characters); JS string builtins used by the
source (`trim`, `slice(0, -1)`) are embedded as executable character-list
functions. Timestamps (`Date.now()`) are naturals supplied by the event that
triggers the state update. Side effects on the host (VS Code event emitters,
unmount and stream-close calls, `process.exit`) are modelled as explicit logs
threaded through the state.
-/

namespace RainbowEcho

/-- The six ink color names of `RAINBOW_COLORS` in `cli.tsx`. -/
inductive Color where
  | red
  | yellow
  | green
  | cyan
  | blue
  | magenta
deriving DecidableEq, Repr

/-- Embeds `const RAINBOW_COLORS = ['red', 'yellow', 'green', 'cyan', 'blue', 'magenta']`. -/
def RAINBOW_COLORS : List Color :=
  [Color.red, Color.yellow, Color.green, Color.cyan, Color.blue, Color.magenta]

/-- Embeds `interface HistoryEntry { text: string; timestamp: number }`. -/
structure HistoryEntry where
  text : String
  timestamp : Nat
deriving DecidableEq, Repr

/-- The color picked for character position `index` in `RainbowText`:
`RAINBOW_COLORS[index % RAINBOW_COLORS.length]`. -/
def cycleColor (index : Nat) : Color :=
  RAINBOW_COLORS.getD (index % RAINBOW_COLORS.length) Color.red

/-- Embeds the `RainbowText` component body:
`text.split('').map((char, index) => <Text color={RAINBOW_COLORS[index % 6]}>{char}</Text>)`.
Each produced fragment is one character paired with its color. -/
def renderRainbowText (text : String) : List (Char × Color) :=
  text.toList.enum.map (fun p => (p.2, cycleColor p.1))

/-- Embeds the history section of `App`: each entry is rendered by
`<RainbowText text={entry.text} />`, independently of the other entries. -/
def renderHistory (history : List HistoryEntry) : List (List (Char × Color)) :=
  history.map (fun entry => renderRainbowText entry.text)

/-- Embeds JS `String.prototype.trim`: strip leading and trailing whitespace.
(Lean core `String.trim` is extensionally the same but is defined through
`Substring` auxiliaries that do not reduce, so we embed the builtin directly.) -/
def jsTrim (s : String) : String :=
  String.mk (((s.data.dropWhile Char.isWhitespace).reverse.dropWhile Char.isWhitespace).reverse)

/-- Embeds JS `s.slice(0, -1)`: drop the final character (identity on `""`). -/
def sliceDropLast (s : String) : String :=
  String.mk s.data.dropLast

/-- The key-flag record Ink passes to the `useInput` callback; only the flags the
`App` handler reads are modelled. `ret` embeds `key.return` (`return` is a Lean
keyword). -/
structure Key where
  ret : Bool
  backspace : Bool
  delete : Bool
  escape : Bool
  ctrl : Bool
  meta : Bool
deriving DecidableEq, Repr

/-- The three `useState` cells of `App`: `inputText`, `history`, `isExiting`. -/
structure AppState where
  inputText : String
  history : List HistoryEntry
  isExiting : Bool
deriving DecidableEq, Repr

/-- The initial `App` state: `useState('')`, `useState([])`, `useState(false)`. -/
def initialApp : AppState := ⟨"", [], false⟩

/-- Embeds the `useInput((char, key) => ...)` handler of `App`, with `now`
standing for the `Date.now()` read in the submit branch. The branches follow
the source order: `key.return`, then `key.backspace || key.delete`, then
`key.escape`, then the printable-character guard
`!key.ctrl && !key.meta && char.length === 1`. -/
def useInputHandler (now : Nat) (char : String) (key : Key) (s : AppState) : AppState :=
  if key.ret then
    if jsTrim s.inputText ≠ "" then
      { s with history := s.history ++ [⟨s.inputText, now⟩], inputText := "" }
    else s
  else if key.backspace || key.delete then
    { s with inputText := sliceDropLast s.inputText }
  else if key.escape then
    { s with isExiting := true }
  else if !key.ctrl && !key.meta && char.length = 1 then
    { s with inputText := s.inputText ++ char }
  else s

/-- A key event as delivered to the handler: the `Date.now()` value current when
it is processed, the `char` argument and the `key` flags. -/
structure InputEvent where
  now : Nat
  char : String
  key : Key
deriving DecidableEq, Repr

/-- One handler invocation. -/
def stepApp (s : AppState) (e : InputEvent) : AppState :=
  useInputHandler e.now e.char e.key s

/-- A sequence of handler invocations, in delivery order. -/
def runEvents (s : AppState) (es : List InputEvent) : AppState :=
  es.foldl stepApp s

/-- A key event with no flags set (a plain printable keystroke carries these). -/
def plainKey : Key := ⟨false, false, false, false, false, false⟩

/-- The ENTER key event flags (`key.return = true`). -/
def returnKey : Key := { plainKey with ret := true }

/-- The BACKSPACE key event flags. -/
def backspaceKey : Key := { plainKey with backspace := true }

/-- The ESC key event flags. -/
def escapeKey : Key := { plainKey with escape := true }

/-- A printable-character event at time `t`. -/
def typeChar (t : Nat) (c : Char) : InputEvent := ⟨t, String.mk [c], plainKey⟩

/-- The event sequence that types `str` character by character and presses ENTER,
all while the clock reads `t`. -/
def submitEvents (t : Nat) (str : String) : List InputEvent :=
  str.toList.map (typeChar t) ++ [⟨t, "", returnKey⟩]

/-- The event sequence performing a list of submissions in order, each given as
(text, clock value at its submission). -/
def submitAll (subs : List (String × Nat)) : List InputEvent :=
  (subs.map (fun p => submitEvents p.2 p.1)).flatten

/-- The observable side effect of the exit `useEffect` in `App` (`part_001`):
either the caller-supplied `onExit()` callback runs, or `process.exit(code)`. -/
inductive ExitEffect where
  | callbackInvoked
  | processExit (code : Nat)
deriving DecidableEq, Repr

/-- The body of `useEffect(() => { if (isExiting) { if (onExit) onExit(); else
process.exit(0); } }, [isExiting, onExit])` once `isExiting` is true:
which effect it performs, depending on whether an `onExit` callback was supplied. -/
def exitAction (onExitPresent : Bool) : ExitEffect :=
  if onExitPresent then ExitEffect.callbackInvoked else ExitEffect.processExit 0

/-- The effects the exit `useEffect` emits across one state update. Its
dependency array is `[isExiting, onExit]` with `onExit` a stable prop, so React
re-runs the effect body exactly when `isExiting` changes; the body acts only
when `isExiting` is true, hence effects are emitted exactly on the
false-to-true transition (the mount run sees `isExiting = false` and does
nothing). -/
def effectsOfTransition (onExitPresent : Bool) (old new : AppState) : List ExitEffect :=
  if old.isExiting = false ∧ new.isExiting = true then [exitAction onExitPresent] else []

/-- One key event processed together with the exit effects its state update
triggers. -/
def stepWithEffects (onExitPresent : Bool) (acc : AppState × List ExitEffect)
    (e : InputEvent) : AppState × List ExitEffect :=
  (stepApp acc.1 e, acc.2 ++ effectsOfTransition onExitPresent acc.1 (stepApp acc.1 e))

/-- Run a sequence of key events from the initial `App` state, collecting the
exit effects emitted by the exit `useEffect` along the way. -/
def runAppWithEffects (onExitPresent : Bool) (es : List InputEvent) :
    AppState × List ExitEffect :=
  es.foldl (stepWithEffects onExitPresent) (initialApp, [])

/-- Embeds `class PseudoTerminalReadable extends Readable` from `streams.ts`:
`buffer` and `isClosed` are its fields; `pushed` records the data chunks
delivered to the stream consumer via `this.push(data)` (backpressure is not
modelled: `push` is taken to always accept), and `eofSignaled` records the
`this.push(null)` end-of-stream signal. -/
structure PseudoTerminalReadable where
  buffer : List String
  isClosed : Bool
  pushed : List String
  eofSignaled : Bool
deriving DecidableEq, Repr

namespace PseudoTerminalReadable

/-- The constructor state: empty buffer, not closed, nothing delivered. -/
def init : PseudoTerminalReadable := ⟨[], false, [], false⟩

/-- Embeds `_read()`: `while (buffer.length > 0 && !isClosed) push(buffer.shift())`.
With `push` always accepting, this drains the whole buffer to the consumer
unless the stream is closed. -/
def _read (r : PseudoTerminalReadable) : PseudoTerminalReadable :=
  if r.isClosed then r
  else { r with buffer := [], pushed := r.pushed ++ r.buffer }

/-- Embeds `feedInput(data)`: `if (isClosed) return; buffer.push(data); _read()`. -/
def feedInput (r : PseudoTerminalReadable) (data : String) : PseudoTerminalReadable :=
  if r.isClosed then r
  else _read { r with buffer := r.buffer ++ [data] }

/-- Embeds `close()`: `isClosed = true; push(null)`. -/
def close (r : PseudoTerminalReadable) : PseudoTerminalReadable :=
  { r with isClosed := true, eofSignaled := true }

end PseudoTerminalReadable

/-- The terminal dimensions record (`vscode.TerminalDimensions` /
`{ columns, rows }`). -/
structure TerminalDimensions where
  columns : Nat
  rows : Nat
deriving DecidableEq, Repr

/-- Embeds `class PseudoTerminalWritable extends Writable` from `streams.ts`:
its own fields are `columns` and `rows`; the `writeEmitter` it fires into is
shared state owned by the pseudoterminal, so it is threaded explicitly as the
list of strings fired so far, in order. -/
structure PseudoTerminalWritable where
  columns : Nat
  rows : Nat
deriving DecidableEq, Repr

namespace PseudoTerminalWritable

/-- Embeds `_write(chunk, encoding, callback)`:
`writeEmitter.fire(chunk.toString()); callback()`. Chunks are modelled as their
textual form, so `chunk.toString()` is the chunk itself; one call appends one
fired event to the emitter log and completes synchronously. -/
def _write (w : PseudoTerminalWritable) (emitter : List String) (chunk : String) :
    List String :=
  emitter ++ [chunk]

/-- A sequence of `_write` calls in order, as issued by the renderer. -/
def writeAll (w : PseudoTerminalWritable) (emitter : List String) (chunks : List String) :
    List String :=
  chunks.foldl (w._write) emitter

/-- Embeds `updateDimensions(dimensions)`: replace `columns` and `rows` in place. -/
def updateDimensions (w : PseudoTerminalWritable) (dimensions : TerminalDimensions) :
    PseudoTerminalWritable :=
  { w with columns := dimensions.columns, rows := dimensions.rows }

end PseudoTerminalWritable

/-- An observable teardown side effect of `RainbowPseudoterminal.cleanup`:
the `inkInstanceToCleanup.unmount()` call or the `stdinToCleanup.close()` call. -/
inductive CleanupEffect where
  | unmountInvoked
  | stdinCloseInvoked
deriving DecidableEq, Repr

/-- Embeds `class RainbowPseudoterminal implements vscode.Pseudoterminal` from
`pseudoterminal.ts`. `writeFired` is the shared `writeEmitter` log (both output
adapters fire into it, as does test mode), `closeFired` the `closeEmitter` log
of exit codes, and `effects` the log of teardown side effects performed by
`cleanup`. `inkInstance` records whether the mounted Ink instance reference is
still held (its only use by the controller is the `unmount()` call, logged in
`effects`). -/
structure RainbowPseudoterminal where
  stdin : Option PseudoTerminalReadable
  stdout : Option PseudoTerminalWritable
  stderr : Option PseudoTerminalWritable
  inkInstance : Option Unit
  testMode : Bool
  writeFired : List String
  closeFired : List Nat
  effects : List CleanupEffect
deriving DecidableEq, Repr

namespace RainbowPseudoterminal

/-- The constructor `new RainbowPseudoterminal(testMode)`. -/
def create (testMode : Bool) : RainbowPseudoterminal :=
  ⟨none, none, none, none, testMode, [], [], []⟩

/-- Embeds `open(initialDimensions)`: default the dimensions to 80x24, create
the three streams; in test mode fire the two banner lines and stop; otherwise
mount the Ink app (the successful completion of the async `renderApp` call is
modelled by the instance reference being stored). -/
def openTerminal (p : RainbowPseudoterminal) (initialDimensions : Option TerminalDimensions) :
    RainbowPseudoterminal :=
  let dimensions := initialDimensions.getD ⟨80, 24⟩
  let p := { p with
    stdin := some PseudoTerminalReadable.init,
    stdout := some ⟨dimensions.columns, dimensions.rows⟩,
    stderr := some ⟨dimensions.columns, dimensions.rows⟩ }
  if p.testMode then
    { p with writeFired := p.writeFired ++
        ["🌈 Rainbow Echo Terminal (Test Mode)\r\n",
         "Terminal created successfully in test mode.\r\n"] }
  else
    { p with inkInstance := some () }

/-- Embeds `processInput(data)`: the source passes the data through as-is. -/
def processInput (data : String) : String := data

/-- Embeds `handleInput(data)`: `if (this.stdin) stdin.feedInput(processInput(data))`. -/
def handleInput (p : RainbowPseudoterminal) (data : String) : RainbowPseudoterminal :=
  match p.stdin with
  | some stdin => { p with stdin := some (stdin.feedInput (processInput data)) }
  | none => p

/-- Embeds `setDimensions(dimensions)`: update the stdout adapter if present,
then the stderr adapter if present. -/
def setDimensions (p : RainbowPseudoterminal) (dimensions : TerminalDimensions) :
    RainbowPseudoterminal :=
  let p := match p.stdout with
    | some w => { p with stdout := some (w.updateDimensions dimensions) }
    | none => p
  match p.stderr with
  | some w => { p with stderr := some (w.updateDimensions dimensions) }
  | none => p

/-- Embeds `cleanup()`: capture the instance and stdin references, clear all
four fields immediately, then unmount the captured instance if it was present
and close the captured stdin if it was present (both in try/catch, errors
ignored; the calls themselves are the observable effects logged). -/
def cleanup (p : RainbowPseudoterminal) : RainbowPseudoterminal :=
  let inkInstanceToCleanup := p.inkInstance
  let stdinToCleanup := p.stdin
  let p := { p with inkInstance := none, stdin := none, stdout := none, stderr := none }
  let p := match inkInstanceToCleanup with
    | some _ => { p with effects := p.effects ++ [CleanupEffect.unmountInvoked] }
    | none => p
  match stdinToCleanup with
  | some _ => { p with effects := p.effects ++ [CleanupEffect.stdinCloseInvoked] }
  | none => p

/-- Embeds `handleExit(exitCode)`: `cleanup(); closeEmitter.fire(exitCode)` —
the close notification is fired unconditionally on every invocation. -/
def handleExit (p : RainbowPseudoterminal) (exitCode : Nat) : RainbowPseudoterminal :=
  let p := p.cleanup
  { p with closeFired := p.closeFired ++ [exitCode] }

/-- Embeds `close()`: `cleanup()` with no close notification. -/
def closeTerminal (p : RainbowPseudoterminal) : RainbowPseudoterminal :=
  p.cleanup

end RainbowPseudoterminal

/-- One embedded-mode session: the controller together with the `App` state held
by the mounted Ink instance. -/
structure SessionState where
  pty : RainbowPseudoterminal
  app : AppState
deriving DecidableEq, Repr

/-- A resize notification delivered to an open session: the host calls the
controller's `setDimensions`; nothing touches the Ink app state. -/
def SessionState.setDimensions (s : SessionState) (dimensions : TerminalDimensions) :
    SessionState :=
  { s with pty := s.pty.setDimensions dimensions }

/-! Helper lemmas shared by the claim theorems. -/

theorem runEvents_append (s : AppState) (es1 es2 : List InputEvent) :
    runEvents s (es1 ++ es2) = runEvents (runEvents s es1) es2 :=
  List.foldl_append stepApp s es1 es2

theorem stepApp_typeChar (t : Nat) (c : Char) (s : AppState) :
    stepApp s (typeChar t c) = { s with inputText := s.inputText ++ String.mk [c] } := by
  simp [stepApp, typeChar, useInputHandler, plainKey, String.length]

theorem runEvents_typing (t : Nat) (cs : List Char) (s : AppState) :
    runEvents s (cs.map (typeChar t)) = { s with inputText := s.inputText ++ String.mk cs } := by
  induction cs generalizing s with
  | nil =>
      simp [runEvents]
  | cons c cs ih =>
      simp only [List.map_cons, runEvents, List.foldl_cons]
      rw [show List.foldl stepApp (stepApp s (typeChar t c)) (cs.map (typeChar t))
            = runEvents (stepApp s (typeChar t c)) (cs.map (typeChar t)) from rfl]
      rw [stepApp_typeChar, ih]
      congr 1
      apply String.ext
      simp [String.data_append]

/-! Theorems for the claims. -/

/-- C4: concatenating the per-character colored fragments produced by the
rainbow formatter yields exactly the original string — character order and
content are preserved, and `cycleColor` is a total function into the fixed
color sequence. -/
theorem rainbow_formatter_preserves_text (s : String) :
    String.mk ((renderRainbowText s).map Prod.fst) = s
    ∧ (renderRainbowText s).map Prod.fst = s.toList
    ∧ ∀ i : Nat, cycleColor i ∈ RAINBOW_COLORS := by
  have hmap : (renderRainbowText s).map Prod.fst = s.toList := by
    rw [renderRainbowText, List.map_map]
    have hcomp : (Prod.fst ∘ fun p : Nat × Char => (p.2, cycleColor p.1)) = Prod.snd := rfl
    rw [hcomp, List.enum_map_snd]
  refine ⟨?_, hmap, ?_⟩
  · rw [hmap]
    cases s with
    | mk data => rfl
  · intro i
    have h : i % RAINBOW_COLORS.length < RAINBOW_COLORS.length :=
      Nat.mod_lt _ (by simp [RAINBOW_COLORS])
    rw [cycleColor, List.getD_eq_getElem RAINBOW_COLORS Color.red h]
    exact List.getElem_mem h

/-- C3: in the rendered history, the fragment list at position `j` is the
rainbow rendering of entry `j`'s own text alone (so the color index restarts
at 0 for every entry and is independent of the other entries), and the color
attached to the character at position `i` equals `RAINBOW_COLORS[i % 6]`. -/
theorem history_color_assignment (hist : List HistoryEntry) (j i : Nat)
    (hj : j < (renderHistory hist).length)
    (hj2 : j < hist.length)
    (hi : i < ((renderHistory hist).get ⟨j, hj⟩).length) :
    (renderHistory hist).get ⟨j, hj⟩ = renderRainbowText (hist.get ⟨j, hj2⟩).text
    ∧ (((renderHistory hist).get ⟨j, hj⟩).get ⟨i, hi⟩).2
        = RAINBOW_COLORS.getD (i % 6) Color.red := by
  have hmapj : (renderHistory hist).get ⟨j, hj⟩
      = renderRainbowText (hist.get ⟨j, hj2⟩).text := by
    simp [renderHistory, List.get_eq_getElem, List.getElem_map]
  refine ⟨hmapj, ?_⟩
  have hi2 : i < (renderRainbowText (hist.get ⟨j, hj2⟩).text).length := by
    rw [← hmapj]; exact hi
  calc (((renderHistory hist).get ⟨j, hj⟩).get ⟨i, hi⟩).2
      = ((renderRainbowText (hist.get ⟨j, hj2⟩).text).get ⟨i, hi2⟩).2 := by
        congr 1
        exact List.get_of_eq hmapj ⟨i, hi⟩
    _ = RAINBOW_COLORS.getD (i % 6) Color.red := by
        simp [renderRainbowText, List.get_eq_getElem, List.getElem_map,
          List.getElem_enum, cycleColor, RAINBOW_COLORS]

/-- Witness for C3: in the one-entry history `["hello"]`, the character at
position 2 is colored `RAINBOW_COLORS[2 % 6] = green`. -/
theorem history_color_assignment_witness :
    (((renderHistory [⟨"hello", 1⟩]).get ⟨0, by decide⟩).get ⟨2, by decide⟩).2
      = RAINBOW_COLORS.getD (2 % 6) Color.red :=
  (history_color_assignment [⟨"hello", 1⟩] 0 2 (by decide) (by decide) (by decide)).2

/-- C2: a submit (ENTER) event appends a history entry carrying the untrimmed
buffer text and the current timestamp and clears the buffer when the buffer
trims to a non-empty string; when the buffer is empty or whitespace-only the
state is left entirely unchanged. -/
theorem submit_appends_history (s : AppState) (t : Nat) (c : String) :
    (jsTrim s.inputText ≠ "" →
      stepApp s ⟨t, c, returnKey⟩
        = { s with history := s.history ++ [⟨s.inputText, t⟩], inputText := "" })
    ∧ (jsTrim s.inputText = "" → stepApp s ⟨t, c, returnKey⟩ = s) := by
  constructor
  · intro h
    simp [stepApp, useInputHandler, returnKey, plainKey, h]
  · intro h
    simp [stepApp, useInputHandler, returnKey, plainKey, h]

/-- Witness for C2: submitting the buffer `" hi "` (whitespace around a
non-empty core) at time 7 appends the untrimmed text and clears the buffer;
submitting a whitespace-only buffer changes nothing. -/
theorem submit_appends_history_witness :
    stepApp ⟨" hi ", [], false⟩ ⟨7, "", returnKey⟩ = ⟨"", [⟨" hi ", 7⟩], false⟩
    ∧ stepApp ⟨"  ", [], false⟩ ⟨7, "", returnKey⟩ = ⟨"  ", [], false⟩ :=
  ⟨(submit_appends_history ⟨" hi ", [], false⟩ 7 "").1 (by decide),
   (submit_appends_history ⟨"  ", [], false⟩ 7 "").2 (by decide)⟩

/-- C6: a delete-last (backspace) event removes exactly the final character of
the input buffer, leaves the history unchanged, and is a complete no-op on an
empty buffer. -/
theorem backspace_drops_last (s : AppState) (t : Nat) (c : String) :
    stepApp s ⟨t, c, backspaceKey⟩ = { s with inputText := sliceDropLast s.inputText }
    ∧ (stepApp s ⟨t, c, backspaceKey⟩).history = s.history
    ∧ (stepApp s ⟨t, c, backspaceKey⟩).inputText.data = s.inputText.data.dropLast
    ∧ (s.inputText = "" → stepApp s ⟨t, c, backspaceKey⟩ = s) := by
  have h : stepApp s ⟨t, c, backspaceKey⟩ = { s with inputText := sliceDropLast s.inputText } := by
    simp [stepApp, useInputHandler, backspaceKey, plainKey]
  refine ⟨h, by rw [h], by rw [h]; rfl, ?_⟩
  intro he
  rw [h, he]
  have hs : sliceDropLast "" = "" := rfl
  rw [hs, ← he]

/-- Witness for C6: the claim scenario `"a", BACKSPACE, BACKSPACE` — the second
backspace acts on the empty buffer and is a no-op. -/
theorem backspace_drops_last_witness :
    stepApp ⟨"", [], false⟩ ⟨0, "", backspaceKey⟩ = ⟨"", [], false⟩ :=
  (backspace_drops_last ⟨"", [], false⟩ 0 "").2.2.2 rfl

/-- C7: input fed to the input adapter after `close()` is silently dropped
(state unchanged, nothing delivered to the consumer), and the controller's
`handleInput` after `cleanup` (adapter references dropped) is a no-op. -/
theorem post_close_input_dropped (r : PseudoTerminalReadable) (data : String)
    (p : RainbowPseudoterminal) (d : String) :
    r.close.feedInput data = r.close
    ∧ (r.close.feedInput data).pushed = r.pushed
    ∧ p.cleanup.handleInput d = p.cleanup := by
  refine ⟨?_, ?_, ?_⟩
  · simp [PseudoTerminalReadable.close, PseudoTerminalReadable.feedInput]
  · simp [PseudoTerminalReadable.close, PseudoTerminalReadable.feedInput]
  · rcases p with ⟨stdin, stdout, stderr, ink, tm, wf, cf, ef⟩
    cases ink <;> cases stdin <;>
      simp [RainbowPseudoterminal.cleanup, RainbowPseudoterminal.handleInput]

/-- C8: every chunk written to the output adapter is forwarded to the display
sink synchronously, exactly once, in write order, so the emitter log after a
write sequence is the previous log followed by exactly the written chunks, and
the concatenated display output equals the concatenated written input. -/
theorem output_forwarded_in_order (w : PseudoTerminalWritable) (emitter : List String)
    (chunks : List String) :
    w.writeAll emitter chunks = emitter ++ chunks
    ∧ String.join (w.writeAll [] chunks) = String.join chunks
    ∧ ∀ chunk, w._write emitter chunk = emitter ++ [chunk] := by
  have hall : ∀ (cs : List String) (e : List String), w.writeAll e cs = e ++ cs := by
    intro cs
    induction cs with
    | nil => intro e; simp [PseudoTerminalWritable.writeAll]
    | cons c cs ih =>
        intro e
        simp only [PseudoTerminalWritable.writeAll, List.foldl_cons] at *
        rw [ih (PseudoTerminalWritable._write w e c)]
        simp [PseudoTerminalWritable._write]
  refine ⟨hall chunks emitter, ?_, fun chunk => rfl⟩
  rw [hall chunks []]
  simp

/-- C9: a resize notification delivered while the session is open replaces the
stored dimensions on both output adapters in place and leaves the input buffer,
the history, the exiting flag, the input adapter and the notification logs
unchanged. -/
theorem resize_updates_dimensions_only (s : SessionState) (d : TerminalDimensions)
    (w1 w2 : PseudoTerminalWritable)
    (hout : s.pty.stdout = some w1) (herr : s.pty.stderr = some w2) :
    (s.setDimensions d).pty.stdout = some ⟨d.columns, d.rows⟩
    ∧ (s.setDimensions d).pty.stderr = some ⟨d.columns, d.rows⟩
    ∧ (s.setDimensions d).app.inputText = s.app.inputText
    ∧ (s.setDimensions d).app.history = s.app.history
    ∧ (s.setDimensions d).app.isExiting = s.app.isExiting
    ∧ (s.setDimensions d).app = s.app
    ∧ (s.setDimensions d).pty.stdin = s.pty.stdin
    ∧ (s.setDimensions d).pty.inkInstance = s.pty.inkInstance
    ∧ (s.setDimensions d).pty.writeFired = s.pty.writeFired
    ∧ (s.setDimensions d).pty.closeFired = s.pty.closeFired := by
  rcases s with ⟨pty, app⟩
  rcases pty with ⟨stdin, stdout, stderr, ink, tm, wf, cf, ef⟩
  simp only [RainbowPseudoterminal.stdout] at hout
  simp only [RainbowPseudoterminal.stderr] at herr
  subst hout
  subst herr
  simp [SessionState.setDimensions, RainbowPseudoterminal.setDimensions,
    PseudoTerminalWritable.updateDimensions]

/-- Witness for C9: resizing a freshly opened session (default 80x24 adapters,
no input yet handled) to 100x30 stores the new dimensions on the stdout
adapter. -/
theorem resize_updates_dimensions_only_witness :
    ((SessionState.mk ((RainbowPseudoterminal.create false).openTerminal none) initialApp
        ).setDimensions ⟨100, 30⟩).pty.stdout = some ⟨100, 30⟩ :=
  (resize_updates_dimensions_only
    ⟨(RainbowPseudoterminal.create false).openTerminal none, initialApp⟩
    ⟨100, 30⟩ ⟨80, 24⟩ ⟨80, 24⟩ rfl rfl).1

/-- Counterexample to C1: on a freshly opened (non-test-mode) terminal, calling
`handleExit 0` twice in a row fires the close notification twice, not once —
`handleExit` unconditionally runs `closeEmitter.fire(exitCode)` on every
invocation; only the callers guard against the double call. -/
theorem handleExit_twice_two_notifications :
    ((((RainbowPseudoterminal.create false).openTerminal none).handleExit 0).handleExit 0
        ).closeFired = [0, 0]
    ∧ ¬ ((((RainbowPseudoterminal.create false).openTerminal none).handleExit 0).handleExit 0
        ).closeFired.length = 1 := by
  constructor
  · rfl
  · decide

/-- C1 (amended): invoking `handleExit` twice in a row raises no exception and
performs cleanup side effects exactly once — the second invocation's only
observable action is firing one more close notification, so two invocations
fire two close notifications (one per invocation), while unmount and
stdin-close happen at most once. -/
theorem handleExit_cleanup_idempotent (p : RainbowPseudoterminal) (c : Nat) :
    (p.handleExit c).handleExit c
      = { p.handleExit c with closeFired := (p.handleExit c).closeFired ++ [c] }
    ∧ ((p.handleExit c).handleExit c).effects = (p.handleExit c).effects := by
  have h : (p.handleExit c).handleExit c
      = { p.handleExit c with closeFired := (p.handleExit c).closeFired ++ [c] } := by
    rcases p with ⟨stdin, stdout, stderr, ink, tm, wf, cf, ef⟩
    cases ink <;> cases stdin <;>
      simp [RainbowPseudoterminal.handleExit, RainbowPseudoterminal.cleanup]
  exact ⟨h, by rw [h]⟩

theorem submitEvents_run (t : Nat) (str : String) (s : AppState)
    (hbuf : s.inputText = "") (hstr : str ≠ "") (htrim : jsTrim str = str) :
    runEvents s (submitEvents t str)
      = { s with history := s.history ++ [⟨str, t⟩], inputText := "" } := by
  rw [submitEvents, runEvents_append, runEvents_typing]
  have hmk : String.mk str.toList = str := by cases str; rfl
  have hbuf2 : s.inputText ++ String.mk str.toList = str := by rw [hbuf, hmk]; rfl
  rw [hbuf2]
  have htr : jsTrim str ≠ "" := by rw [htrim]; exact hstr
  simp [runEvents, stepApp, useInputHandler, returnKey, plainKey, htr]

theorem submitAll_run (subs : List (String × Nat)) (s : AppState)
    (hbuf : s.inputText = "")
    (hne : ∀ p ∈ subs, p.1 ≠ "" ∧ jsTrim p.1 = p.1) :
    runEvents s (submitAll subs)
      = { s with history := s.history ++ subs.map (fun p => ⟨p.1, p.2⟩), inputText := "" } := by
  induction subs generalizing s with
  | nil =>
      simp [submitAll, runEvents]
      cases s with
      | mk i h x =>
          simp only [AppState.inputText] at hbuf
          rw [hbuf]
  | cons p rest ih =>
      have hflat : submitAll (p :: rest) = submitEvents p.2 p.1 ++ submitAll rest := by
        simp [submitAll]
      rw [hflat, runEvents_append,
        submitEvents_run p.2 p.1 s hbuf (hne p (by simp)).1 (hne p (by simp)).2,
        ih _ rfl (fun q hq => hne q (by simp [hq]))]
      simp

/-- C5: a sequence of non-empty trimmed strings submitted in order yields
exactly those strings as history, in order, paired with the (non-decreasing)
clock values at their submissions, with the input buffer empty afterwards; and
history is append-only under every key event (no event removes, reorders or
modifies existing entries). -/
theorem submissions_build_history (subs : List (String × Nat))
    (hne : ∀ p ∈ subs, p.1 ≠ "" ∧ jsTrim p.1 = p.1)
    (hmono : List.Chain' (fun a b => a.2 ≤ b.2) subs) :
    (runEvents initialApp (submitAll subs)).history = subs.map (fun p => ⟨p.1, p.2⟩)
    ∧ (runEvents initialApp (submitAll subs)).inputText = ""
    ∧ List.Chain' (fun a b => a ≤ b)
        ((runEvents initialApp (submitAll subs)).history.map HistoryEntry.timestamp)
    ∧ ∀ (s : AppState) (e : InputEvent), ∃ tail, (stepApp s e).history = s.history ++ tail := by
  have hrun := submitAll_run subs initialApp rfl hne
  rw [hrun]
  refine ⟨by simp [initialApp], rfl, ?_, ?_⟩
  · simp only [initialApp, List.nil_append, List.map_map]
    have hcomp : (HistoryEntry.timestamp ∘ fun p : String × Nat => HistoryEntry.mk p.1 p.2)
        = fun p : String × Nat => p.2 := rfl
    rw [hcomp]
    exact (List.chain'_map (fun p : String × Nat => p.2)).mpr hmono
  · intro s e
    simp only [stepApp, useInputHandler]
    split
    · split
      · exact ⟨[⟨s.inputText, e.now⟩], rfl⟩
      · exact ⟨[], by simp⟩
    · split
      · exact ⟨[], by simp⟩
      · split
        · exact ⟨[], by simp⟩
        · split
          · exact ⟨[], by simp⟩
          · exact ⟨[], by simp⟩

/-- Witness for C5: submitting `"hi"` at time 3 then `"ab"` at time 5 leaves
exactly those two history entries in order. -/
theorem submissions_build_history_witness :
    (runEvents initialApp (submitAll [("hi", 3), ("ab", 5)])).history
      = [⟨"hi", 3⟩, ⟨"ab", 5⟩] :=
  (submissions_build_history [("hi", 3), ("ab", 5)] (by decide)
    (by simp [List.chain'_cons])).1

theorem isExiting_monotone (s : AppState) (e : InputEvent) (h : s.isExiting = true) :
    (stepApp s e).isExiting = true := by
  simp only [stepApp, useInputHandler]
  split
  · split <;> simp [h]
  · split
    · simp [h]
    · split
      · simp
      · split <;> simp [h]

theorem runWithEffects_invariant (b : Bool) (es : List InputEvent)
    (s : AppState) (effs : List ExitEffect)
    (h1 : effs.length ≤ 1) (h2 : ∀ eff ∈ effs, eff = exitAction b)
    (h3 : s.isExiting = false → effs = []) :
    (es.foldl (stepWithEffects b) (s, effs)).2.length ≤ 1
    ∧ ∀ eff ∈ (es.foldl (stepWithEffects b) (s, effs)).2, eff = exitAction b := by
  induction es generalizing s effs with
  | nil => exact ⟨h1, h2⟩
  | cons e es ih =>
      simp only [List.foldl_cons]
      rw [show stepWithEffects b (s, effs) e
            = (stepApp s e, effs ++ effectsOfTransition b s (stepApp s e)) from rfl]
      cases hs : s.isExiting with
      | false =>
          have heffs : effs = [] := h3 hs
          subst heffs
          cases hs2 : (stepApp s e).isExiting with
          | false =>
              have hd : effectsOfTransition b s (stepApp s e) = [] := by
                simp [effectsOfTransition, hs2]
              rw [hd]
              exact ih _ _ (by simp) (by simp) (fun _ => rfl)
          | true =>
              have hd : effectsOfTransition b s (stepApp s e) = [exitAction b] := by
                simp [effectsOfTransition, hs, hs2]
              rw [hd]
              refine ih _ _ (by simp) ?_ ?_
              · intro eff heff
                simp at heff
                simp [heff]
              · intro hfalse
                rw [hs2] at hfalse
                exact absurd hfalse (by simp)
      | true =>
          have hd : effectsOfTransition b s (stepApp s e) = [] := by
            simp [effectsOfTransition, hs]
          rw [hd, List.append_nil]
          refine ih _ _ h1 h2 ?_
          intro hfalse
          rw [isExiting_monotone s e hs] at hfalse
          exact absurd hfalse (by simp)

/-- C10: across any key-event sequence from the initial state, the exit side
effect fires at most once, and every fired effect is the caller-supplied exit
callback when one was given and `process.exit(0)` otherwise. -/
theorem exit_effect_at_most_once (b : Bool) (es : List InputEvent) :
    (runAppWithEffects b es).2.length ≤ 1
    ∧ (∀ eff ∈ (runAppWithEffects b es).2, eff = exitAction b)
    ∧ exitAction b = (if b then ExitEffect.callbackInvoked else ExitEffect.processExit 0) := by
  have h := runWithEffects_invariant b es initialApp [] (by simp) (by simp) (fun _ => rfl)
  exact ⟨h.1, h.2, rfl⟩

end RainbowEcho


